import Mathlib

/-!
Shallow embedding of `zipexcept` (src/zipexcept/main.py) in Lean 4.

Paths are modelled as lists of path segments.  A candidate path handed to
`should_exclude` is represented by its segments relative to the base
directory (the Python code derives `rel_path = os.path.relpath(path, base_dir)`
and `filename = os.path.basename(path)` from the absolute path; on POSIX,
for a path strictly inside the base these are exactly the joined relative
segments and the last segment).  The filesystem seen by `os.walk` is
modelled as a tree of named files and directories.

`fnmatch.fnmatch` (POSIX: `os.path.normcase` is the identity) is embedded
as a glob matcher compiled from the pattern string: `*` matches any
sequence of characters (including `/`), `?` exactly one character, and
`[...]` a character class with ranges and `!` negation, where an
unterminated `[` is a literal `[`, mirroring `fnmatch.translate`.
-/

/-- One member of a glob character class: a single character or a range. -/
inductive ClsItem : Type where
  | single : Char → ClsItem
  | range : Char → Char → ClsItem
deriving DecidableEq

/-- Compiled glob pattern token, mirroring `fnmatch.translate` output. -/
inductive GlobTok : Type where
  | star : GlobTok
  | qmark : GlobTok
  | lit : Char → GlobTok
  | cls : Bool → List ClsItem → GlobTok
deriving DecidableEq

/-- Parse the inside of a character class into items; `a-b` is a range,
a trailing `-` is a literal, everything else a single character. -/
def parseItems : List Char → List ClsItem
  | a :: '-' :: b :: rest => ClsItem.range a b :: parseItems rest
  | a :: rest => ClsItem.single a :: parseItems rest
  | [] => []

/-- Token for one character read outside a class (used when an unterminated
`[` forces the remainder of the pattern to be reparsed without the class). -/
def litTok (c : Char) : GlobTok :=
  if c = '*' then GlobTok.star else if c = '?' then GlobTok.qmark else GlobTok.lit c

/-- Build the class token from the accumulated class body; a leading `!`
negates the class. -/
def classTok (acc : List Char) : GlobTok :=
  match acc with
  | '!' :: rest => GlobTok.cls true (parseItems rest)
  | _ => GlobTok.cls false (parseItems acc)

/-- Whether a `]` met now closes the class whose body so far is `acc`:
per `fnmatch.translate`, a `]` at body position 0, or at position 1 right
after a leading `!`, is a literal member and does not close the class. -/
def classClose (acc : List Char) : Bool :=
  match acc with
  | [] => false
  | ['!'] => false
  | _ => true

/-- Glob pattern scanner.  The state is `none` outside a class and
`some acc` inside a class with accumulated body `acc`.  At end of input
inside a class the `[` was unterminated: it becomes a literal and the
accumulated body is reparsed as ordinary tokens (it can contain no
closeable class, since any closing `]` would already have closed). -/
def parseGlobAux : Option (List Char) → List Char → List GlobTok
  | none, [] => []
  | none, '*' :: cs => GlobTok.star :: parseGlobAux none cs
  | none, '?' :: cs => GlobTok.qmark :: parseGlobAux none cs
  | none, '[' :: cs => parseGlobAux (some []) cs
  | none, c :: cs => GlobTok.lit c :: parseGlobAux none cs
  | some acc, [] => GlobTok.lit '[' :: acc.map litTok
  | some acc, c :: cs =>
      if c = ']' && classClose acc then classTok acc :: parseGlobAux none cs
      else parseGlobAux (some (acc ++ [c])) cs

/-- Compile a glob pattern to tokens. -/
def parseGlob (pat : List Char) : List GlobTok := parseGlobAux none pat

/-- Character-class membership test. -/
def inClsItems (items : List ClsItem) (c : Char) : Bool :=
  items.any fun it =>
    match it with
    | ClsItem.single d => c == d
    | ClsItem.range lo hi => decide (lo ≤ c) && decide (c ≤ hi)

/-- Match a token list against a string (as characters); the whole string
must be consumed, mirroring the `\Z` anchor of `fnmatch.translate`. -/
def matchToks : List GlobTok → List Char → Bool
  | [], s => s.isEmpty
  | GlobTok.star :: ts, s => s.tails.any fun t => matchToks ts t
  | GlobTok.qmark :: ts, s =>
      match s with
      | [] => false
      | _ :: s' => matchToks ts s'
  | GlobTok.lit c :: ts, s =>
      match s with
      | [] => false
      | d :: s' => c == d && matchToks ts s'
  | GlobTok.cls neg items :: ts, s =>
      match s with
      | [] => false
      | d :: s' => (neg != inClsItems items d) && matchToks ts s'

/-- Embedding of `fnmatch.fnmatch(name, pat)` on POSIX. -/
def fnmatch (name pat : String) : Bool := matchToks (parseGlob pat.data) name.data

/-- Embedding of Python `s.endswith(suffix)`. -/
def pEndsWith (s suffix : String) : Bool := suffix.data.isSuffixOf s.data

/-- Embedding of Python `s.startswith(pre)`. -/
def pStartsWith (s pre : String) : Bool := pre.data.isPrefixOf s.data

/-- Embedding of Python `c in s` for a single character. -/
def pContains (s : String) (c : Char) : Bool := s.data.contains c

/-- Embedding of Python `s[:-1]` (drop the last character). -/
def pDropLast (s : String) : String := String.mk s.data.dropLast

/-- Embedding of Python `s.strip()`: drop whitespace from both ends. -/
def pStrip (s : String) : String :=
  String.mk (((s.data.dropWhile Char.isWhitespace).reverse.dropWhile Char.isWhitespace).reverse)

/-- `os.path.relpath(path, base)` for a path given by its segments strictly
below the base: the segments joined with `/` (the POSIX separator). -/
def relPath : List String → String
  | [] => ""
  | [s] => s
  | s :: rest => s ++ "/" ++ relPath rest

/-- `os.path.basename(path)`: the last path segment. -/
def fileName (segs : List String) : String := segs.getLastD ""

/-- The body of the `for pattern in patterns` loop of `should_exclude`
(src/zipexcept/main.py lines 40-57): empty patterns are skipped; a pattern
ending in `/` matches directories whose relative path glob-matches the
pattern without its trailing slash plus an implicit `*`; a pattern with a
wildcard character glob-matches the relative path or the bare filename;
any other pattern must equal the relative path or the bare filename. -/
def matchesPattern (segs : List String) (isDir : Bool) (pattern : String) : Bool :=
  if pattern = "" then false
  else if pEndsWith pattern "/" then
    isDir && fnmatch (relPath segs) (pDropLast pattern ++ "*")
  else if pContains pattern '*' || pContains pattern '?' || pContains pattern '[' then
    fnmatch (relPath segs) pattern || fnmatch (fileName segs) pattern
  else
    relPath segs == pattern || fileName segs == pattern

/-- `should_exclude(path, base_dir, patterns)` (src/zipexcept/main.py lines
34-60), with the candidate path given by its segments relative to the base
and its directory flag (`os.path.isdir`).  The loop returns `True` on the
first matching pattern and `False` after the loop, i.e. it is `List.any`. -/
def should_exclude (segs : List String) (isDir : Bool) (patterns : List String) : Bool :=
  patterns.any (matchesPattern segs isDir)

mutual
/-- A directory tree as seen by `os.walk`: named regular files and named
directories with children (mutual with `EntryList`). -/
inductive Entry : Type where
  | file : String → Entry
  | dir : String → EntryList → Entry
deriving DecidableEq
/-- A list of sibling entries of a directory. -/
inductive EntryList : Type where
  | nil : EntryList
  | cons : Entry → EntryList → EntryList
deriving DecidableEq
end

mutual
/-- The walk of `collect_files` restricted to one entry `e` whose parent
directory has relative path `pref`: a file is kept when not excluded; a
directory is pruned (its contents never visited) when excluded, otherwise
its children are walked.  Mirrors the `dirs[:] = [...]` filter and the
per-file test of src/zipexcept/main.py lines 75-84. -/
def collectEntry (pats : List String) (pref : List String) : Entry → List (List String)
  | Entry.file n =>
      if should_exclude (pref ++ [n]) false pats then [] else [pref ++ [n]]
  | Entry.dir n ch =>
      if should_exclude (pref ++ [n]) true pats then []
      else collectChildren pats (pref ++ [n]) ch
/-- The walk of `collect_files` over the children of a directory. -/
def collectChildren (pats : List String) (pref : List String) : EntryList → List (List String)
  | EntryList.nil => []
  | EntryList.cons e es => collectEntry pats pref e ++ collectChildren pats pref es
end

/-- `collect_files(source_dir, ignore_patterns)` (src/zipexcept/main.py
lines 63-86).  The source is `none` when the path does not exist and
`some e` when it exists as entry `e`; `os.path.isdir` fails for both a
missing path and a regular file, and the code then prints an error and
calls `sys.exit(1)`, modelled as `Except.error ()`.  For a directory the
walk returns the set of included files, given here as their paths relative
to the source root (the code stores absolute paths, i.e. these segments
appended to the absolute source root). -/
def collect_files (source : Option Entry) (ignore_patterns : List String) :
    Except Unit (List (List String)) :=
  match source with
  | some (Entry.dir _ ch) => Except.ok (collectChildren ignore_patterns [] ch)
  | _ => Except.error ()

/-- `read_tarignore(tarignore_path)` (src/zipexcept/main.py lines 19-31).
The file is `none` when the path does not exist, otherwise the list of its
lines.  Each line is stripped; lines empty after stripping or starting
with `#` are skipped; the stripped line is appended otherwise. -/
def read_tarignore : Option (List String) → List String
  | none => []
  | some lines =>
      lines.filterMap fun line =>
        let stripped := pStrip line
        if stripped != "" && !(pStartsWith stripped "#") then some stripped else none

/-- Length of the longest common leading segment run of two paths. -/
def commonPrefixLen : List String → List String → Nat
  | a :: as, b :: bs => if a = b then commonPrefixLen as bs + 1 else 0
  | _, _ => 0

/-- `os.path.relpath(path, base)` on normalized absolute POSIX paths given
by segments: climb out of the part of `base` that is not shared (one `..`
per segment) and descend into the rest of `path`. -/
def relpathSegs (path base : List String) : List String :=
  List.replicate (base.length - commonPrefixLen path base) ".." ++
    path.drop (commonPrefixLen path base)

/-- The archive name computed by `create_archive` for a collected file
(src/zipexcept/main.py lines 126-137):
`os.path.relpath(file_path, os.path.dirname(source_dir))`, where
`os.path.dirname` of the absolute source root drops its last segment. -/
def arcname (source_dir file_path : List String) : List String :=
  relpathSegs file_path source_dir.dropLast

/-- A segment that can occur as a component of a real absolute path or as
a filename reported by `os.walk`: nonempty, not the traversal segment
`..`, and without an embedded separator. -/
def validName (s : String) : Prop := s ≠ "" ∧ s ≠ ".." ∧ '/' ∉ s.data

/-- The sample tree of the spec and of tests/test_main.py: regular files
`include_file.txt`, `exclude_file.log`, `exclude_dir/anything`,
`mixed_dir/include.txt`, `mixed_dir/exclude.log`. -/
def sampleTree : EntryList :=
  EntryList.cons (Entry.file "include_file.txt")
    (EntryList.cons (Entry.file "exclude_file.log")
      (EntryList.cons
        (Entry.dir "exclude_dir" (EntryList.cons (Entry.file "anything") EntryList.nil))
        (EntryList.cons
          (Entry.dir "mixed_dir"
            (EntryList.cons (Entry.file "include.txt")
              (EntryList.cons (Entry.file "exclude.log") EntryList.nil)))
          EntryList.nil)))

/-! ### Helper lemmas -/

/-- A lone `*` token matches every string. -/
theorem matchToks_star_true (s : List Char) : matchToks [GlobTok.star] s = true := by
  rw [matchToks, List.any_eq_true]
  exact ⟨[], (List.mem_tails [] s).2 ⟨s, by simp⟩, rfl⟩

/-- A string ending in `/` is nonempty. -/
theorem ne_empty_of_pEndsWith_slash (p : String) (h : pEndsWith p "/" = true) : p ≠ "" := by
  intro hp
  subst hp
  exact absurd h (by decide)

/-- The joined relative path of a nonempty list of nonempty segments is
nonempty. -/
theorem relPath_ne_empty (segs : List String) (h1 : segs ≠ [])
    (h2 : ∀ s ∈ segs, s ≠ "") : relPath segs ≠ "" := by
  cases segs with
  | nil => exact absurd rfl h1
  | cons a rest =>
      cases rest with
      | nil => exact h2 a (by simp)
      | cons b t =>
          intro hcontra
          have hd := congrArg String.data hcontra
          rw [show relPath (a :: b :: t) = (a ++ "/") ++ relPath (b :: t) from rfl] at hd
          rw [String.data_append, String.data_append] at hd
          rw [show ("/" : String).data = ['/'] from rfl] at hd
          rw [show ("" : String).data = [] from rfl] at hd
          simp at hd

/-- The last element (with default) of a nonempty list is a member. -/
theorem getLastD_mem : ∀ (l : List String) (d : String), l ≠ [] → l.getLastD d ∈ l
  | [a], _, _ => by simp
  | a :: b :: t, d, _ => by
      have ih := getLastD_mem (b :: t) a (by simp)
      rw [show (a :: b :: t).getLastD d = (b :: t).getLastD a from rfl]
      exact List.mem_cons_of_mem a ih

/-- Rebuilding a nonempty list from its `dropLast` and its last element. -/
theorem dropLast_append_getLastD :
    ∀ (l : List String), l ≠ [] → l.dropLast ++ [l.getLastD ""] = l
  | [a], _ => rfl
  | a :: b :: t, _ => by
      have ih := dropLast_append_getLastD (b :: t) (by simp)
      rw [show (a :: b :: t).dropLast = a :: (b :: t).dropLast from rfl]
      rw [show (a :: b :: t).getLastD "" = (b :: t).getLastD "" from rfl]
      rw [List.cons_append, ih]

/-- `List.any` is invariant under permutation of the list. -/
theorem any_eq_of_perm {l1 l2 : List String} (h : l1.Perm l2) (f : String → Bool) :
    l1.any f = l2.any f := by
  rw [Bool.eq_iff_iff, List.any_eq_true, List.any_eq_true]
  constructor
  · rintro ⟨x, hx, hfx⟩
    exact ⟨x, h.mem_iff.1 hx, hfx⟩
  · rintro ⟨x, hx, hfx⟩
    exact ⟨x, h.mem_iff.2 hx, hfx⟩

/-- The common leading run of `base ++ rest` and `base` is all of `base`. -/
theorem commonPrefixLen_append (base rest : List String) :
    commonPrefixLen (base ++ rest) base = base.length := by
  induction base with
  | nil => cases rest <;> rfl
  | cons a as ih => simp [commonPrefixLen, ih]

/-- `os.path.relpath` of a path below the base is the remainder. -/
theorem relpathSegs_append (base rest : List String) :
    relpathSegs (base ++ rest) base = rest := by
  simp [relpathSegs, commonPrefixLen_append, List.drop_left]

/-- `os.path.relpath` of a file below a directory, relative to that
directory's parent, keeps the directory name as the leading segment. -/
theorem relpathSegs_parent (b : List String) (g : String) (m : List String) :
    relpathSegs ((b ++ [g]) ++ m) b = g :: m := by
  rw [List.append_assoc]
  exact relpathSegs_append b ([g] ++ m)

/-- The archive name of a file below the source root, in single-source
mode, is the root's own name followed by the file's relative segments. -/
theorem arcname_under (src m : List String) (h : src ≠ []) :
    arcname src (src ++ m) = src.getLastD "" :: m := by
  have hsplit := dropLast_append_getLastD src h
  rw [arcname]
  rw [show src ++ m = (src.dropLast ++ [src.getLastD ""]) ++ m from by rw [hsplit]]
  exact relpathSegs_parent _ _ _

/-- The joined path of `g :: m` starts with the characters of `g`. -/
theorem relPath_cons_data (g : String) (m : List String) :
    ∃ t, (relPath (g :: m)).data = g.data ++ t := by
  cases m with
  | nil => exact ⟨[], by simp [relPath]⟩
  | cons b t =>
      refine ⟨'/' :: (relPath (b :: t)).data, ?_⟩
      rw [show relPath (g :: b :: t) = (g ++ "/") ++ relPath (b :: t) from rfl]
      rw [String.data_append, String.data_append, List.append_assoc]
      rfl

/-- A string with empty character data is the empty string. -/
theorem eq_empty_of_data_eq_nil (s : String) (h : s.data = []) : s = "" := by
  cases s
  exact congrArg String.mk h

mutual
/-- Every path collected below prefix `pref` from entry `e` strictly
extends `pref`, and every strictly intermediate prefix was tested as a
directory by the walk and found not excluded. -/
theorem collectEntry_mem_inv (pats pref : List String) (e : Entry) (m : List String)
    (hm : m ∈ collectEntry pats pref e) :
    pref <+: m ∧ pref ≠ m ∧
      ∀ q, pref <+: q → q <+: m → q ≠ pref → q ≠ m →
        should_exclude q true pats = false := by
  cases e with
  | file n =>
      rw [collectEntry] at hm
      split at hm
      · simp at hm
      · rw [List.mem_singleton] at hm
        subst hm
        refine ⟨List.prefix_append pref [n], ?_, ?_⟩
        · intro h
          have := congrArg List.length h
          simp at this
        · intro q hq1 hq2 hq3 hq4
          exfalso
          have h1 := hq1.length_le
          have h2 := hq2.length_le
          rw [List.length_append, List.length_singleton] at h2
          rcases Nat.lt_or_ge pref.length q.length with hlt | hge
          · have hq : q.length = (pref ++ [n]).length := by
              rw [List.length_append, List.length_singleton]
              omega
            exact hq4 (hq2.eq_of_length hq)
          · have hq : pref.length = q.length := Nat.le_antisymm h1 hge
            exact hq3 (hq1.eq_of_length hq).symm
  | dir n ch =>
      rw [collectEntry] at hm
      split at hm
      · simp at hm
      · rename_i hnotex
        have hex : should_exclude (pref ++ [n]) true pats = false :=
          Bool.not_eq_true _ ▸ eq_false_of_ne_true hnotex
        obtain ⟨hpre, hne, hall⟩ := collectChildren_mem_inv pats (pref ++ [n]) ch m hm
        have hlen : pref.length + 1 ≤ m.length := by
          have := hpre.length_le
          rw [List.length_append, List.length_singleton] at this
          omega
        refine ⟨(List.prefix_append pref [n]).trans hpre, ?_, ?_⟩
        · intro h
          have := congrArg List.length h
          omega
        · intro q hq1 hq2 hq3 hq4
          by_cases hqpn : q = pref ++ [n]
          · subst hqpn
            exact hex
          · rcases Nat.le_total q.length (pref ++ [n]).length with hle | hle
            · exfalso
              have h3 : q <+: pref ++ [n] := List.prefix_of_prefix_length_le hq2 hpre hle
              have h1 := hq1.length_le
              have h4 := h3.length_le
              rw [List.length_append, List.length_singleton] at h4
              rcases Nat.lt_or_ge pref.length q.length with hlt | hge
              · have hq : q.length = (pref ++ [n]).length := by
                  rw [List.length_append, List.length_singleton]
                  omega
                exact hqpn (h3.eq_of_length hq)
              · have hq : pref.length = q.length := Nat.le_antisymm h1 hge
                exact hq3 (hq1.eq_of_length hq).symm
            · have h3 : pref ++ [n] <+: q := List.prefix_of_prefix_length_le hpre hq2 hle
              exact hall q h3 hq2 hqpn hq4
/-- The children version of `collectEntry_mem_inv`. -/
theorem collectChildren_mem_inv (pats pref : List String) (es : EntryList) (m : List String)
    (hm : m ∈ collectChildren pats pref es) :
    pref <+: m ∧ pref ≠ m ∧
      ∀ q, pref <+: q → q <+: m → q ≠ pref → q ≠ m →
        should_exclude q true pats = false := by
  cases es with
  | nil =>
      rw [collectChildren] at hm
      simp at hm
  | cons e es' =>
      rw [collectChildren, List.mem_append] at hm
      cases hm with
      | inl h => exact collectEntry_mem_inv pats pref e m h
      | inr h => exact collectChildren_mem_inv pats pref es' m h
end

/-! ### Claim theorems -/

/-- C1: with patterns `["*.log", "exclude_dir/"]` on the sample tree with
regular files `include_file.txt`, `exclude_file.log`, `exclude_dir/anything`,
`mixed_dir/include.txt`, `mixed_dir/exclude.log`, the members of the set
returned by `collect_files` are exactly `include_file.txt` and
`mixed_dir/include.txt` (as paths relative to the source root). -/
theorem collect_sample_members :
    collect_files (some (Entry.dir "src" sampleTree)) ["*.log", "exclude_dir/"] =
      Except.ok [["include_file.txt"], ["mixed_dir", "include.txt"]] ∧
    ∀ m : List String,
      m ∈ collectChildren ["*.log", "exclude_dir/"] [] sampleTree ↔
        (m = ["include_file.txt"] ∨ m = ["mixed_dir", "include.txt"]) := by
  have h : collectChildren ["*.log", "exclude_dir/"] [] sampleTree =
      [["include_file.txt"], ["mixed_dir", "include.txt"]] := by decide
  refine ⟨rfl, ?_⟩
  intro m
  rw [h]
  simp

/-- C2: directory pruning is transitive.  If `should_exclude` holds of a
nonempty relative path `d` as a directory, then no member `m` of the set
collected by the walk lies strictly beneath `d`: a member that `d`
prefixes is `d` itself.  (Descendants are absent even when they match no
pattern themselves, since the walk never descends into `d`.) -/
theorem collect_prunes_excluded_dirs :
    ∀ (pats : List String) (name : String) (ch : EntryList)
      (l : List (List String)) (d m : List String),
      collect_files (some (Entry.dir name ch)) pats = Except.ok l →
      should_exclude d true pats = true → d ≠ [] →
      m ∈ l → d <+: m → d = m := by
  intro pats name ch l d m hcf hex hd hm hpre
  rw [collect_files, Except.ok.injEq] at hcf
  subst hcf
  obtain ⟨-, -, hall⟩ := collectChildren_mem_inv pats [] ch m hm
  by_contra hne
  have hfalse := hall d ⟨d, rfl⟩ hpre hd hne
  rw [hex] at hfalse
  exact Bool.true_eq_false.mp hfalse

/-- Witness for C2 at a concrete tree: `exclude_dir` is excluded by the
pattern `exclude_dir/`, the file `keep.txt` is collected, and the theorem
yields that `exclude_dir` does not strictly prefix it. -/
theorem collect_prunes_excluded_dirs_witness :
    collect_files
        (some (Entry.dir "root"
          (EntryList.cons
            (Entry.dir "exclude_dir" (EntryList.cons (Entry.file "anything") EntryList.nil))
            (EntryList.cons (Entry.file "keep.txt") EntryList.nil))))
        ["exclude_dir/"] = Except.ok [["keep.txt"]] ∧
    should_exclude ["exclude_dir"] true ["exclude_dir/"] = true ∧
    (["exclude_dir"] : List String) ≠ [] ∧
    ["keep.txt"] ∈ ([["keep.txt"]] : List (List String)) ∧
    (["exclude_dir"] <+: ["keep.txt"] → ["exclude_dir"] = ["keep.txt"]) :=
  ⟨rfl, by decide, by decide, by decide,
    collect_prunes_excluded_dirs ["exclude_dir/"] "root"
      (EntryList.cons
        (Entry.dir "exclude_dir" (EntryList.cons (Entry.file "anything") EntryList.nil))
        (EntryList.cons (Entry.file "keep.txt") EntryList.nil))
      [["keep.txt"]]
      ["exclude_dir"] ["keep.txt"] rfl (by decide) (by decide) (by decide)⟩

/-- C5 counterexample: a source path that exists as a single regular file
is rejected by `collect_files` (the code requires `os.path.isdir`), even
with no patterns; the claim says such a source is tested once and added
to the set. -/
theorem collect_files_file_source_errors :
    collect_files (some (Entry.file "notes.txt")) [] = Except.error () := rfl

/-- C5 amended: `collect_files` fails fatally exactly when the declared
source path is not an existing directory — a nonexistent path and an
existing regular file both abort (before any archive is opened); a
single-file source is never tested against the patterns. -/
theorem collect_files_error_iff_not_dir :
    ∀ (source : Option Entry) (pats : List String),
      collect_files source pats = Except.error () ↔
        ∀ name ch, source ≠ some (Entry.dir name ch) := by
  intro source pats
  cases source with
  | none => simp [collect_files]
  | some e =>
      cases e with
      | file n => simp [collect_files]
      | dir n ch =>
          constructor
          · intro h
            exact absurd h (by simp [collect_files])
          · intro h
            exact absurd rfl (h n ch)

/-- The glob `build*` matches exactly the strings that start with the
literal characters `build`. -/
theorem fnmatch_build_star (rest : String) : fnmatch ("build" ++ rest) "build*" = true := by
  rw [fnmatch]
  rw [show ("build" ++ rest).data = 'b' :: 'u' :: 'i' :: 'l' :: 'd' :: rest.data from by
    rw [String.data_append]; rfl]
  rw [show parseGlob ("build*" : String).data =
    [GlobTok.lit 'b', GlobTok.lit 'u', GlobTok.lit 'i', GlobTok.lit 'l', GlobTok.lit 'd',
      GlobTok.star] from rfl]
  simp [matchToks, matchToks_star_true]

/-- C3: a pattern ending in `/` matches exactly when the candidate is a
directory and its relative path glob-matches the pattern's prefix (the
pattern without its trailing slash) followed by an implicit `*`; in
particular, `build/` excludes every directory whose relative path starts
with the literal prefix `build` (such as `build` and `build-tmp`), not
only exact path-segment matches. -/
theorem should_exclude_dir_pattern :
    (∀ (segs : List String) (isDir : Bool) (p : String), pEndsWith p "/" = true →
      should_exclude segs isDir [p] =
        (isDir && fnmatch (relPath segs) (pDropLast p ++ "*"))) ∧
    (∀ rest : String, should_exclude ["build" ++ rest] true ["build/"] = true) := by
  have hmain : ∀ (segs : List String) (isDir : Bool) (p : String), pEndsWith p "/" = true →
      should_exclude segs isDir [p] =
        (isDir && fnmatch (relPath segs) (pDropLast p ++ "*")) := by
    intro segs isDir p hp
    have hne : p ≠ "" := ne_empty_of_pEndsWith_slash p hp
    simp [should_exclude, matchesPattern, hne, hp]
  refine ⟨hmain, ?_⟩
  intro rest
  rw [hmain ["build" ++ rest] true "build/" (by decide)]
  rw [Bool.true_and]
  rw [show relPath ["build" ++ rest] = "build" ++ rest from rfl]
  rw [show pDropLast "build/" = "build" from rfl]
  exact fnmatch_build_star rest

/-- Witness for C3: applied at the directory `exclude_dir` with pattern
`exclude_dir/`, and at the directory `build-tmp` with pattern `build/`. -/
theorem should_exclude_dir_pattern_witness :
    pEndsWith "exclude_dir/" "/" = true ∧
    should_exclude ["exclude_dir"] true ["exclude_dir/"] =
      (true && fnmatch (relPath ["exclude_dir"]) (pDropLast "exclude_dir/" ++ "*")) ∧
    should_exclude ["build" ++ "-tmp"] true ["build/"] = true :=
  ⟨by decide,
   should_exclude_dir_pattern.1 ["exclude_dir"] true "exclude_dir/" (by decide),
   should_exclude_dir_pattern.2 "-tmp"⟩

/-- C4: for a pattern not ending in `/`, on a real candidate (nonempty
relative path with nonempty segments), `should_exclude` with that single
pattern is a glob comparison against the relative path or the bare
filename when the pattern contains `*`, `?` or `[`, and otherwise is
string equality against the relative path or the bare filename. -/
theorem should_exclude_nondir_pattern :
    ∀ (segs : List String) (isDir : Bool) (p : String),
      segs ≠ [] → (∀ s ∈ segs, s ≠ "") → pEndsWith p "/" = false →
      should_exclude segs isDir [p] =
        (if pContains p '*' || pContains p '?' || pContains p '[' then
          fnmatch (relPath segs) p || fnmatch (fileName segs) p
        else
          (relPath segs == p || fileName segs == p)) := by
  intro segs isDir p hne hseg hp
  by_cases hp0 : p = ""
  · subst hp0
    rw [if_neg (by decide)]
    have h1 : relPath segs ≠ "" := relPath_ne_empty segs hne hseg
    have h2 : fileName segs ≠ "" := by
      rw [fileName]
      exact hseg _ (getLastD_mem segs "" hne)
    simp [should_exclude, matchesPattern, h1, h2]
  · simp [should_exclude, matchesPattern, hp0, hp]

/-- Witness for C4: applied to the file `mixed_dir/exclude.log` with the
wildcard pattern `*.log` and with the literal pattern `exclude.log`. -/
theorem should_exclude_nondir_pattern_witness :
    ((["mixed_dir", "exclude.log"] : List String) ≠ [] ∧
      (∀ s ∈ (["mixed_dir", "exclude.log"] : List String), s ≠ "") ∧
      pEndsWith "*.log" "/" = false ∧
      should_exclude ["mixed_dir", "exclude.log"] false ["*.log"] =
        (if pContains "*.log" '*' || pContains "*.log" '?' || pContains "*.log" '[' then
          fnmatch (relPath ["mixed_dir", "exclude.log"]) "*.log" ||
            fnmatch (fileName ["mixed_dir", "exclude.log"]) "*.log"
        else
          (relPath ["mixed_dir", "exclude.log"] == "*.log" ||
            fileName ["mixed_dir", "exclude.log"] == "*.log"))) ∧
    (pEndsWith "exclude.log" "/" = false ∧
      should_exclude ["mixed_dir", "exclude.log"] false ["exclude.log"] =
        (if pContains "exclude.log" '*' || pContains "exclude.log" '?' ||
            pContains "exclude.log" '[' then
          fnmatch (relPath ["mixed_dir", "exclude.log"]) "exclude.log" ||
            fnmatch (fileName ["mixed_dir", "exclude.log"]) "exclude.log"
        else
          (relPath ["mixed_dir", "exclude.log"] == "exclude.log" ||
            fileName ["mixed_dir", "exclude.log"] == "exclude.log"))) :=
  ⟨⟨by decide, by decide, by decide,
    should_exclude_nondir_pattern ["mixed_dir", "exclude.log"] false "*.log"
      (by decide) (by decide) (by decide)⟩,
   ⟨by decide,
    should_exclude_nondir_pattern ["mixed_dir", "exclude.log"] false "exclude.log"
      (by decide) (by decide) (by decide)⟩⟩

/-- C10: a pattern list in which every pattern ends in `/` can never
exclude a candidate that is not a directory. -/
theorem should_exclude_dir_patterns_skip_files :
    ∀ (segs : List String) (pats : List String),
      (∀ p ∈ pats, pEndsWith p "/" = true) →
      should_exclude segs false pats = false := by
  intro segs pats h
  rw [should_exclude, List.any_eq_false]
  intro p hp
  have hslash := h p hp
  have hne : p ≠ "" := ne_empty_of_pEndsWith_slash p hslash
  simp [matchesPattern, hne, hslash]

/-- Witness for C10: the pattern `exclude_dir/` does not exclude a regular
file named `exclude_dir`. -/
theorem should_exclude_dir_patterns_skip_files_witness :
    (∀ p ∈ (["exclude_dir/"] : List String), pEndsWith p "/" = true) ∧
    should_exclude ["exclude_dir"] false ["exclude_dir/"] = false :=
  ⟨by decide,
   should_exclude_dir_patterns_skip_files ["exclude_dir"] ["exclude_dir/"] (by decide)⟩

/-- C6: in single-source mode the archive name of every collected file is
its path relative to the parent directory of the source root, and that
name is the source root's own directory name followed by the file's
relative path — the root directory name is the top-level folder inside
the archive. -/
theorem arcname_single_source :
    ∀ (srcAbs pats : List String) (name : String) (ch : EntryList)
      (l : List (List String)) (m : List String),
      srcAbs ≠ [] →
      collect_files (some (Entry.dir name ch)) pats = Except.ok l →
      m ∈ l →
      arcname srcAbs (srcAbs ++ m) = relpathSegs (srcAbs ++ m) srcAbs.dropLast ∧
      arcname srcAbs (srcAbs ++ m) = srcAbs.getLastD "" :: m :=
  fun srcAbs _ _ _ _ m h _ _ => ⟨rfl, arcname_under srcAbs m h⟩

/-- Witness for C6: source root `/home/user/proj`, collected file
`sub/a.txt`; the archive name is `proj/sub/a.txt`. -/
theorem arcname_single_source_witness :
    (["home", "user", "proj"] : List String) ≠ [] ∧
    collect_files
        (some (Entry.dir "proj"
          (EntryList.cons
            (Entry.dir "sub" (EntryList.cons (Entry.file "a.txt") EntryList.nil))
            EntryList.nil)))
        [] = Except.ok [["sub", "a.txt"]] ∧
    ["sub", "a.txt"] ∈ ([["sub", "a.txt"]] : List (List String)) ∧
    arcname ["home", "user", "proj"] (["home", "user", "proj"] ++ ["sub", "a.txt"]) =
      relpathSegs (["home", "user", "proj"] ++ ["sub", "a.txt"])
        (["home", "user", "proj"] : List String).dropLast ∧
    arcname ["home", "user", "proj"] (["home", "user", "proj"] ++ ["sub", "a.txt"]) =
      (["home", "user", "proj"] : List String).getLastD "" :: ["sub", "a.txt"] :=
  ⟨by decide, rfl, by decide,
   arcname_single_source ["home", "user", "proj"] [] "proj"
      (EntryList.cons
        (Entry.dir "sub" (EntryList.cons (Entry.file "a.txt") EntryList.nil))
        EntryList.nil)
      [["sub", "a.txt"]]
      ["sub", "a.txt"] (by decide) rfl (by decide)⟩

/-- C7: for filesystem-valid segment names, the archive name computed for
a collected file has no `..` traversal segment, and its joined string does
not begin with the path separator.  (No violating name can be computed,
so the validation the spec describes has nothing to detect.) -/
theorem arcname_no_traversal :
    ∀ (srcAbs pats : List String) (name : String) (ch : EntryList)
      (l : List (List String)) (m : List String),
      srcAbs ≠ [] → (∀ s ∈ srcAbs, validName s) → (∀ s ∈ m, validName s) →
      collect_files (some (Entry.dir name ch)) pats = Except.ok l →
      m ∈ l →
      ".." ∉ arcname srcAbs (srcAbs ++ m) ∧
      (relPath (arcname srcAbs (srcAbs ++ m))).data.head? ≠ some '/' := by
  intro srcAbs pats name ch l m h hsrc hm _ _
  rw [arcname_under srcAbs m h]
  have hgv : validName (srcAbs.getLastD "") := hsrc _ (getLastD_mem srcAbs "" h)
  constructor
  · intro hmem
    rcases List.mem_cons.1 hmem with heq | hmem'
    · exact hgv.2.1 heq.symm
    · exact (hm _ hmem').2.1 rfl
  · obtain ⟨t, ht⟩ := relPath_cons_data (srcAbs.getLastD "") m
    rw [ht]
    cases hd : (srcAbs.getLastD "").data with
    | nil => exact absurd (eq_empty_of_data_eq_nil _ hd) hgv.1
    | cons c cs =>
        rw [List.cons_append, List.head?_cons]
        intro hc
        have hcse : c = '/' := by injection hc
        apply hgv.2.2
        rw [hd, hcse]
        exact List.mem_cons_self '/' cs

/-- Witness for C7: source root `/srv/data`, collected file `logs/x.txt`;
the archive name `data/logs/x.txt` has no `..` segment and does not start
with `/`. -/
theorem arcname_no_traversal_witness :
    (["srv", "data"] : List String) ≠ [] ∧
    (∀ s ∈ (["srv", "data"] : List String), validName s) ∧
    (∀ s ∈ (["logs", "x.txt"] : List String), validName s) ∧
    collect_files
        (some (Entry.dir "data"
          (EntryList.cons
            (Entry.dir "logs" (EntryList.cons (Entry.file "x.txt") EntryList.nil))
            EntryList.nil)))
        [] = Except.ok [["logs", "x.txt"]] ∧
    ["logs", "x.txt"] ∈ ([["logs", "x.txt"]] : List (List String)) ∧
    ".." ∉ arcname ["srv", "data"] (["srv", "data"] ++ ["logs", "x.txt"]) ∧
    (relPath (arcname ["srv", "data"] (["srv", "data"] ++ ["logs", "x.txt"]))).data.head? ≠
      some '/' := by
  refine ⟨by decide, ?_, ?_, rfl, by decide, ?_⟩
  · intro s hs
    fin_cases hs <;> exact ⟨by decide, by decide, by decide⟩
  · intro s hs
    fin_cases hs <;> exact ⟨by decide, by decide, by decide⟩
  · exact arcname_no_traversal ["srv", "data"] [] "data"
      (EntryList.cons
        (Entry.dir "logs" (EntryList.cons (Entry.file "x.txt") EntryList.nil))
        EntryList.nil)
      [["logs", "x.txt"]]
      ["logs", "x.txt"] (by decide)
      (by intro s hs; fin_cases hs <;> exact ⟨by decide, by decide, by decide⟩)
      (by intro s hs; fin_cases hs <;> exact ⟨by decide, by decide, by decide⟩)
      rfl (by decide)

/-- C8: a path is excluded exactly when at least one pattern of the list
matches it (logical OR, no precedence, no negation), and permuting the
pattern list never changes the result. -/
theorem should_exclude_any_or :
    ∀ (segs : List String) (isDir : Bool) (pats : List String),
      (should_exclude segs isDir pats = true ↔
        ∃ p ∈ pats, matchesPattern segs isDir p = true) ∧
      (∀ pats', pats.Perm pats' →
        should_exclude segs isDir pats = should_exclude segs isDir pats') := by
  intro segs isDir pats
  constructor
  · rw [should_exclude]
    exact List.any_eq_true
  · intro pats' hperm
    rw [should_exclude, should_exclude]
    exact any_eq_of_perm hperm (matchesPattern segs isDir)

/-- Witness for C8: applied to `a.log` with the list `["*.log", "dir/"]`
and its transposition. -/
theorem should_exclude_any_or_witness :
    (should_exclude ["a.log"] false ["*.log", "dir/"] = true ↔
      ∃ p ∈ (["*.log", "dir/"] : List String),
        matchesPattern ["a.log"] false p = true) ∧
    List.Perm ["*.log", "dir/"] ["dir/", "*.log"] ∧
    should_exclude ["a.log"] false ["*.log", "dir/"] =
      should_exclude ["a.log"] false ["dir/", "*.log"] :=
  ⟨(should_exclude_any_or ["a.log"] false ["*.log", "dir/"]).1,
   by decide,
   (should_exclude_any_or ["a.log"] false ["*.log", "dir/"]).2 ["dir/", "*.log"] (by decide)⟩

/-- C9: `read_tarignore` returns the empty pattern list for a missing
file; otherwise it returns, in input order and without deduplication,
exactly the stripped lines that are non-empty and do not start with `#`;
in particular a file of `# comment`, a blank line and `*.tmp` yields
exactly `["*.tmp"]`. -/
theorem read_tarignore_spec :
    read_tarignore none = [] ∧
    (∀ lines : List String,
      read_tarignore (some lines) =
        (lines.map pStrip).filter fun s => s != "" && !(pStartsWith s "#")) ∧
    read_tarignore (some ["# comment", "", "*.tmp"]) = ["*.tmp"] := by
  refine ⟨rfl, ?_, by decide⟩
  intro lines
  induction lines with
  | nil => rfl
  | cons l ls ih =>
      rw [read_tarignore] at ih
      rw [read_tarignore, List.filterMap_cons, List.map_cons, List.filter_cons]
      by_cases hcond : (pStrip l != "" && !(pStartsWith (pStrip l) "#")) = true
      · rw [if_pos hcond, if_pos hcond, ih]
      · rw [if_neg hcond, if_neg hcond, ih]
